import Mathlib

/-!
# RamState (ram-state-js) — verification of the reactive-state core

Shallow embedding of `src/src/ram-state.js` (v2.8.0): JS values and the
`isEqual` deep-equality helper, the `safeRun`/`safeRunCleanUp` callback
isolation, the microtask scheduler, the `useState` cell `set` pipeline,
`useEffect`, `useMemo`, and `useButton`.

JS numbers are modelled as `Int` plus an explicit `NaN` constructor (the
claims only involve exact-value comparison, never floating-point rounding).
Objects and arrays carry an explicit reference id `ref` so that JS `===`
(reference equality on objects) is expressible.
-/

namespace RamState

/-- JS numbers: either `NaN` or a finite numeric value (exact arithmetic). -/
inductive JSNum where
  | nan
  | fin (x : Int)
deriving DecidableEq, Repr

/-- Acyclic JS values.  `arr`/`obj` carry a reference id: two object values
denote the same JS object exactly when their `ref`s coincide. -/
inductive Value where
  | undef
  | vnull
  | bool (b : Bool)
  | num (n : JSNum)
  | str (s : String)
  | arr (ref : Nat) (elems : List Value)
  | obj (ref : Nat) (fields : List (String × Value))

/-- JS `===` (strict equality): exact value comparison on primitives
(`NaN === NaN` is `false`), reference comparison on arrays/objects. -/
def strictEq : Value → Value → Bool
  | .undef, .undef => true
  | .vnull, .vnull => true
  | .bool a, .bool b => a == b
  | .num .nan, _ => false
  | _, .num .nan => false
  | .num (.fin a), .num (.fin b) => a == b
  | .str a, .str b => a == b
  | .arr r _, .arr s _ => r == s
  | .obj r _, .obj s _ => r == s
  | _, _ => false

/-- JS `typeof`. -/
def typeof : Value → String
  | .undef => "undefined"
  | .vnull => "object"
  | .bool _ => "boolean"
  | .num _ => "number"
  | .str _ => "string"
  | .arr _ _ => "object"
  | .obj _ _ => "object"

/-- JS truthiness (the `a && b` guard in `isEqual`). -/
def truthy : Value → Bool
  | .undef => false
  | .vnull => false
  | .bool b => b
  | .num .nan => false
  | .num (.fin x) => x != 0
  | .str s => s != ""
  | .arr _ _ => true
  | .obj _ _ => true

/-- JS `Array.isArray`. -/
def isArray : Value → Bool
  | .arr _ _ => true
  | _ => false

/-- The element list of an array value (`a[0..a.length-1]` once
`Array.isArray(a)` is known; empty on non-arrays). -/
def arrElems : Value → List Value
  | .arr _ xs => xs
  | _ => []

/-- `Object.keys`: index strings for arrays, own keys in insertion order
for objects. -/
def objKeys : Value → List String
  | .arr _ xs => (List.range xs.length).map (fun i => toString i)
  | .obj _ fs => fs.map Prod.fst
  | _ => []

/-- JS property read `a[k]` (string key); absent properties read as
`undefined`. -/
def getProp : Value → String → Value
  | .arr _ xs, k =>
      match (List.range xs.length).find? (fun i => toString i == k) with
      | some i => xs.getD i .undef
      | none => .undef
  | .obj _ fs, k =>
      match fs.find? (fun f => f.1 == k) with
      | some f => f.2
      | none => .undef
  | _, _ => .undef

theorem one_le_sizeOf_list {α : Type} [SizeOf α] (xs : List α) :
    1 ≤ sizeOf xs := by
  cases xs with
  | nil => simp
  | cons x t => simp; omega

theorem sizeOf_getD_lt {xs : List Value} {i : Nat} (h : i < xs.length) :
    sizeOf (xs.getD i .undef) < sizeOf xs := by
  rw [List.getD_eq_getElem?_getD, List.getElem?_eq_getElem h, Option.getD_some]
  exact List.sizeOf_lt_of_mem (List.getElem_mem h)

theorem sizeOf_arrElems_lt {v x : Value} (h : x ∈ arrElems v) :
    sizeOf x < sizeOf v := by
  cases v with
  | arr r xs =>
      have := List.sizeOf_lt_of_mem h
      simp [arrElems] at this
      simp
      omega
  | undef => simp [arrElems] at h
  | vnull => simp [arrElems] at h
  | bool b => simp [arrElems] at h
  | num n => simp [arrElems] at h
  | str s => simp [arrElems] at h
  | obj r fs => simp [arrElems] at h

theorem sizeOf_arr_eq (r : Nat) (xs : List Value) :
    sizeOf (Value.arr r xs) = 1 + r + sizeOf xs := by
  simp

theorem sizeOf_obj_eq (r : Nat) (fs : List (String × Value)) :
    sizeOf (Value.obj r fs) = 1 + r + sizeOf fs := by
  simp

theorem sizeOf_getProp_lt {v : Value} (k : String)
    (h : truthy v = true) (h2 : typeof v = "object") :
    sizeOf (getProp v k) < sizeOf v := by
  cases v with
  | arr r xs =>
      have hV := sizeOf_arr_eq r xs
      have hxs := one_le_sizeOf_list xs
      rw [getProp]
      cases hf : (List.range xs.length).find? (fun i => toString i == k) with
      | none =>
          dsimp only
          have hu : sizeOf Value.undef = 1 := by simp
          omega
      | some i =>
          dsimp only
          have hlt : i < xs.length := List.mem_range.mp (List.mem_of_find?_eq_some hf)
          have := sizeOf_getD_lt hlt
          omega
  | obj r fs =>
      have hV := sizeOf_obj_eq r fs
      have hfs := one_le_sizeOf_list fs
      rw [getProp]
      cases hf : fs.find? (fun f => f.1 == k) with
      | none =>
          dsimp only
          have hu : sizeOf Value.undef = 1 := by simp
          omega
      | some f =>
          dsimp only
          have h1 : sizeOf f < sizeOf fs := List.sizeOf_lt_of_mem (List.mem_of_find?_eq_some hf)
          have h2 : sizeOf f.2 < sizeOf f := by
            obtain ⟨k', v'⟩ := f
            simp
          omega
  | undef => simp [typeof] at h2
  | vnull => simp [truthy] at h
  | bool b => simp [typeof] at h2
  | num n => simp [typeof] at h2
  | str s => simp [typeof] at h2

/-- `getProp` never grows: on non-object-like values it reads `undefined`. -/
theorem sizeOf_getProp_le (v : Value) (k : String) :
    sizeOf (getProp v k) ≤ sizeOf v := by
  have hu : sizeOf Value.undef = 1 := by simp
  cases v with
  | arr r xs =>
      have hV := sizeOf_arr_eq r xs
      have hxs := one_le_sizeOf_list xs
      rw [getProp]
      cases hf : (List.range xs.length).find? (fun i => toString i == k) with
      | none =>
          dsimp only
          omega
      | some i =>
          dsimp only
          have hlt : i < xs.length := List.mem_range.mp (List.mem_of_find?_eq_some hf)
          have := sizeOf_getD_lt hlt
          omega
  | obj r fs =>
      have hV := sizeOf_obj_eq r fs
      have hfs := one_le_sizeOf_list fs
      rw [getProp]
      cases hf : fs.find? (fun f => f.1 == k) with
      | none =>
          dsimp only
          omega
      | some f =>
          dsimp only
          have h1 : sizeOf f < sizeOf fs := List.sizeOf_lt_of_mem (List.mem_of_find?_eq_some hf)
          have h2 : sizeOf f.2 < sizeOf f := by
            obtain ⟨k', v'⟩ := f
            simp
          omega
  | undef => simp [getProp]
  | vnull => simp [getProp]
  | bool b => simp [getProp]
  | num n => simp [getProp]
  | str s => simp [getProp]

/-- The `isEqual` deep-equality helper, translated from the source:
reference equality (`a === b`) short-circuits; differing `typeof` kinds are
unequal; two arrays compare by length and order-sensitive pairwise
recursion (`a.length === b.length && a.every((v, i) => isEqual(v, b[i]))`);
any other pair of truthy values of `typeof "object"` compares
`Object.keys(a).length` against `Object.keys(b).length` and recurses on
`a[k]` vs `b[k]` for each key `k` of `a`
(`keysA.every(k => isEqual(a[k], b[k]))`); everything else is unequal. -/
def isEqual (a b : Value) : Bool :=
  if strictEq a b then true
  else if typeof a != typeof b then false
  else if isArray a && isArray b then
    (arrElems a).length == (arrElems b).length &&
      ((arrElems a).zip (arrElems b)).attach.all (fun p => isEqual p.1.1 p.1.2)
  else if truthy a && truthy b && typeof a == "object" then
    (objKeys a).length == (objKeys b).length &&
      (objKeys a).all (fun k => isEqual (getProp a k) (getProp b k))
  else false
termination_by sizeOf a + sizeOf b
decreasing_by
  · obtain ⟨⟨x, y⟩, hp⟩ := p
    obtain ⟨h1, h2⟩ := List.of_mem_zip hp
    have ha := sizeOf_arrElems_lt h1
    have hb := sizeOf_arrElems_lt h2
    dsimp only
    omega
  · have hg : (truthy a && truthy b && (typeof a == "object")) = true := by
      assumption
    simp only [Bool.and_eq_true, beq_iff_eq] at hg
    have h1 := sizeOf_getProp_lt (v := a) k hg.1.1 hg.2
    have h2 := sizeOf_getProp_le b k
    omega


/-- `v` is the JS number `NaN`. -/
def Value.isNaN : Value → Bool
  | .num .nan => true
  | _ => false

/-! ## Callback isolation (`safeRun` / `safeRunCleanUp`) and watchers -/

/-- A pending cleanup is itself a user callback: invoked later, it either
returns normally or throws. -/
inductive CleanupBehavior where
  | ok
  | throws
deriving DecidableEq, Repr

/-- How a user callback invocation finishes: it raises an exception, it
returns a function (the candidate cleanup), or it returns a non-function
value. -/
inductive CbRet where
  | throws
  | retFun (cleanup : CleanupBehavior)
  | retVal
deriving DecidableEq, Repr

/-- What one invocation of a user callback does: the `scheduleJob(...)`
calls it makes (job ids, in order), and how it finishes. -/
structure CbOutcome where
  schedules : List Nat
  ret : CbRet
deriving DecidableEq, Repr

/-- `safeRun`: the callback runs inside try/catch — an exception is logged
(`console.error`) and replaced by `null`; a function result is kept as the
new cleanup, any other result is dropped
(`typeof result === 'function' ? result : null`). -/
def safeRun (o : CbOutcome) : Option CleanupBehavior :=
  match o.ret with
  | .retFun c => some c
  | .retVal => none
  | .throws => none

/-- A watcher as stored in a `sideEffect` list: the callback plus the
currently pending cleanup (`null` initially). -/
structure Watcher (P : Type) where
  cb : P → CbOutcome
  cleanup : Option CleanupBehavior

/-- Payload of a set-watcher: `{ dom, value, hasChange }` (bound elements
identified by ids). -/
structure WatchParams where
  dom : List Nat
  value : Value
  hasChange : Bool

/-- Payload of a change-watcher: `{ dom, value }`. -/
structure WatchEffectParams where
  dom : List Nat
  value : Value

/-- Button state object `{ disabled, loading, display }`. -/
structure BtnState where
  disabled : Bool
  loading : Bool
  display : Bool
deriving DecidableEq, Repr

/-- Payload of a button set-watcher: `{ dom, state, hasChange }`. -/
structure BtnWatchParams where
  dom : List Nat
  state : BtnState
  hasChange : Bool
deriving DecidableEq, Repr

/-- Payload of a button change-watcher: `{ dom, state }`. -/
structure BtnEffectParams where
  dom : List Nat
  state : BtnState
deriving DecidableEq, Repr

/-- Observable events of a run: which user callbacks were invoked with
which payloads, which cleanups ran, and which scheduler requests were
issued from inside callbacks. -/
inductive Event where
  | cleanupRun (c : CleanupBehavior)
  | setCbRun (p : WatchParams)
  | changeCbRun (p : WatchEffectParams)
  | schedReq (job : Nat)
  | effectCbRun
  | memoComputeRun (v : Value)
  | btnSetCbRun (p : BtnWatchParams)
  | btnChangeCbRun (p : BtnEffectParams)

/-- One iteration of a watcher `forEach` loop:
`safeRunCleanUp(w.cleanup); w.cleanup = safeRun(w.cb, payload)`.
`safeRunCleanUp` runs the pending cleanup if it is a function, catching
and logging any exception; the callback itself runs through `safeRun`. -/
def runWatcher {P : Type} (mkEv : P → Event) (p : P) (w : Watcher P) :
    Watcher P × List Event :=
  let cleanupEvs := match w.cleanup with
    | some c => [Event.cleanupRun c]
    | none => []
  let out := w.cb p
  ({ w with cleanup := safeRun out },
    cleanupEvs ++ [mkEv p] ++ out.schedules.map Event.schedReq)

/-- `sideEffect.onX.forEach(w => ...)` over a whole watcher list. -/
def runWatchers {P : Type} (mkEv : P → Event) (p : P) :
    List (Watcher P) → List (Watcher P) × List Event
  | [] => ([], [])
  | w :: rest =>
      let we := runWatcher mkEv p w
      let re := runWatchers mkEv p rest
      (we.1 :: re.1, we.2 ++ re.2)

/-! ## `useState` cells and `set` -/

/-- A `useState` cell: bound element ids (resolved once at construction),
the current value, and the two watcher channels. -/
structure CellState where
  dom : List Nat
  data : Value
  onSet : List (Watcher WatchParams)
  onChange : List (Watcher WatchEffectParams)

/-- The core of `stateAPI.set` after functional-updater unwrapping:
`hasChange = !isEqual(data, value)`; `data` is overwritten; every bound
element is re-synchronized (`syncDomModel` writes only into the DOM
elements, never into the cell, so it contributes no cell-state change
here); all set-watchers run with `{dom, value, hasChange}`; if `hasChange`,
all change-watchers run with `{dom, value}`; the new value is returned. -/
def setRun (st : CellState) (v : Value) : CellState × List Event × Value :=
  let hasChange := !isEqual st.data v
  let rs := runWatchers Event.setCbRun ⟨st.dom, v, hasChange⟩ st.onSet
  let rc :=
    if hasChange then runWatchers Event.changeCbRun ⟨st.dom, v⟩ st.onChange
    else (st.onChange, [])
  ({ st with data := v, onSet := rs.1, onChange := rc.1 }, rs.2 ++ rc.2, v)

/-- An argument to `set`: a plain value, or a functional updater
(`typeof value === "function"`), which may itself throw. -/
inductive SetArg where
  | val (v : Value)
  | fn (f : Value → Except Unit Value)

/-- `stateAPI.set`: a functional updater is first applied to the current
value — `value = value(data)` is NOT inside any try/catch, so an updater
exception escapes to the caller of `set`; then the `setRun` pipeline. -/
def setOp (st : CellState) (arg : SetArg) :
    Except Unit (CellState × List Event × Value) :=
  match arg with
  | .val v => .ok (setRun st v)
  | .fn f =>
      match f st.data with
      | .ok v => .ok (setRun st v)
      | .error e => .error e

/-- `stateAPI.watchEffect(cb, executeOnMount)`: registers a change-watcher;
only with `executeOnMount = true` does it also run once immediately. -/
def watchEffectReg (st : CellState) (cb : WatchEffectParams → CbOutcome)
    (executeOnMount : Bool) : CellState × List Event :=
  if executeOnMount then
    ({ st with onChange := st.onChange ++ [⟨cb, safeRun (cb ⟨st.dom, st.data⟩)⟩] },
      [Event.changeCbRun ⟨st.dom, st.data⟩] ++
        (cb ⟨st.dom, st.data⟩).schedules.map Event.schedReq)
  else
    ({ st with onChange := st.onChange ++ [⟨cb, none⟩] }, [])

/-! ## The scheduler -/

/-- The scheduler between flushes: the pending job `Set` (insertion order,
distinct members) and how many microtask `flush`es are armed. -/
structure SchedState where
  queue : List Nat
  flushesArmed : Nat

/-- The idle scheduler. -/
def schedIdle : SchedState := ⟨[], 0⟩

/-- `schedule(job)` outside a flush: `queue.add(job)` (a no-op when the job
is already a member — JS `Set`), and since `isFlushing` is false between
turns, one more microtask `Promise.resolve().then(flush)` is armed — on
EVERY such call, even when the job was already queued. -/
def schedule (s : SchedState) (j : Nat) : SchedState :=
  { queue := if j ∈ s.queue then s.queue else s.queue ++ [j],
    flushesArmed := s.flushesArmed + 1 }

/-- Feed a list of schedule requests (in order) to the scheduler. -/
def scheduleAll (s : SchedState) (js : List Nat) : SchedState :=
  js.foldl schedule s

/-- `queue.add(job)` as it happens DURING a flush (`isFlushing` is true, so
no new microtask is armed): membership is checked against the whole `Set`
— jobs already visited in this flush plus the still-pending tail; a new
job is appended at the end, where `Set.forEach` will still visit it. -/
def schedAdd (visited : List Nat) (pend : List Nat) (j : Nat) : List Nat :=
  if j ∈ visited ∨ j ∈ pend then pend else pend ++ [j]

/-- `flush`'s `queue.forEach((job) => job())` under JS `Set` iteration
order: insertion order, including members inserted while the iteration is
running.  `beh j` lists the `schedule` calls job `j` makes when executed.
`fuel` bounds the iteration count — the JS loop genuinely diverges when
every job keeps scheduling fresh jobs — and with sufficient fuel the
result is the exact execution order of the flush. -/
def flushSteps (beh : Nat → List Nat) : Nat → List Nat → List Nat → List Nat
  | 0, _, _ => []
  | _ + 1, _, [] => []
  | fuel + 1, visited, j :: rest =>
      j :: flushSteps beh fuel (visited ++ [j])
        ((beh j).foldl (schedAdd (visited ++ [j])) rest)

/-- One full `flush()` on queue `q`: run the jobs, then `queue.clear()` —
the returned pair is (execution order, queue afterwards). -/
def flushRun (beh : Nat → List Nat) (fuel : Nat) (q : List Nat) :
    List Nat × List Nat :=
  (flushSteps beh fuel [] q, [])

/-- Drain the microtasks armed during a turn: each runs `flush` on the
then-current queue; the first flush clears the queue, so every later armed
flush finds it empty.  Returns the concatenated execution order. -/
def drainFlushes (beh : Nat → List Nat) (fuel : Nat) : Nat → List Nat → List Nat
  | 0, _ => []
  | n + 1, q => (flushRun beh fuel q).1 ++ drainFlushes beh fuel n (flushRun beh fuel q).2

/-! ## `useEffect` and `useMemo` -/

/-- The subscription callback `useEffect`/`useMemo` install on a
dependency: `() => scheduleJob(job)` — it requests `job` and returns
`undefined` (`scheduleJob`'s result), which is not a function, hence it
yields no cleanup. -/
def schedulerCb (job : Nat) : WatchEffectParams → CbOutcome :=
  fun _ => ⟨[job], .retVal⟩

/-- `deps` of `useEffect`: `null`/`undefined`, or an array of cells
(named by their position in the global registry). -/
inductive EffectDeps where
  | nullDeps
  | listDeps (idxs : List Nat)

/-- `useEffect(cb, deps)`: for `deps === null` it subscribes
`() => scheduleJob(effect)` via `watchEffect` to EVERY state registered at
call time; for an array, to exactly the listed states; then `effect()`
runs once synchronously: `safeRunCleanUp(cleanup)` is a no-op on the
initial `undefined` cleanup, then `cleanup = safeRun(cb)`.  Returns the
updated registry, the events of the synchronous part, and the stored
cleanup. -/
def useEffectRun (states : List CellState) (deps : EffectDeps) (job : Nat)
    (ucb : Unit → CbOutcome) :
    List CellState × List Event × Option CleanupBehavior :=
  let states' :=
    match deps with
    | .nullDeps =>
        states.map fun st => (watchEffectReg st (schedulerCb job) false).1
    | .listDeps idxs =>
        idxs.foldl (fun acc i =>
          match acc.get? i with
          | some st => acc.set i (watchEffectReg st (schedulerCb job) false).1
          | none => acc) states
  (states', [Event.effectCbRun] ++ (ucb ()).schedules.map Event.schedReq,
    safeRun (ucb ()))

/-- Ways `deps` is passed to `useMemo`: a bare Cell, or an array of cells
(named by registry position). -/
inductive MemoDeps where
  | singleCell (idx : Nat)
  | listCells (idxs : List Nat)

/-- A JS runtime error escaping to the caller. -/
inductive JsError where
  | typeError
deriving DecidableEq, Repr

/-- `useMemo(factory, deps)`: the source runs `deps.forEach(...)`
unconditionally — when `deps` is a bare Cell rather than an array there is
no `forEach` method and a `TypeError` escapes to the caller of `useMemo`.
For an array, each dependency gets the change-watcher
`() => scheduleJob(compute)` (`dep?.` skips null entries; out-of-range
registry positions are treated the same way); then one synchronous initial
`compute()` stores `factory()` — the local watcher list is still empty, so
no local watcher runs. -/
def useMemoRun (states : List CellState) (deps : MemoDeps) (computeJob : Nat)
    (factory : Unit → Value) :
    Except JsError (List CellState × List Event × Value) :=
  match deps with
  | .singleCell _ => .error .typeError
  | .listCells idxs =>
      let states' := idxs.foldl (fun acc i =>
          match acc.get? i with
          | some st => acc.set i (watchEffectReg st (schedulerCb computeJob) false).1
          | none => acc) states
      .ok (states', [Event.memoComputeRun (factory ())], factory ())

/-! ## `useButton` -/

/-- Per-element static render configuration captured at bind time. -/
structure BtnConfig where
  defaultHtml : String
  loadingHtml : String
  loadingIcon : String
  loadingClass : String
  disabledClass : String
  shownClass : String
  hiddenClass : String
deriving DecidableEq, Repr

/-- The rendered state of one bound button element. -/
structure BtnElem where
  disabled : Bool
  displayNone : Bool
  classes : List String
  innerHTML : String
deriving DecidableEq, Repr

/-- One bound element: its id, captured config, and rendered state. -/
structure BoundBtn where
  id : Nat
  cfg : BtnConfig
  el : BtnElem
deriving DecidableEq, Repr

/-- `el.classList.toggle(c, force)`. -/
def classToggle (classes : List String) (c : String) (force : Bool) :
    List String :=
  if force then (if c ∈ classes then classes else classes ++ [c])
  else classes.filter (fun x => x != c)

/-- `updateRender` per element: inline display (`removeProperty` vs
`display:none !important`), native `disabled = disabled || loading`, the
four class toggles in source order, and the innerHTML swap (loading
template + icon when loading, else the captured default content). -/
def updateRenderElem (cfg : BtnConfig) (s : BtnState) (el : BtnElem) :
    BtnElem :=
  { displayNone := !s.display,
    disabled := s.disabled || s.loading,
    classes :=
      classToggle (classToggle (classToggle (classToggle el.classes
        cfg.loadingClass s.loading)
        cfg.disabledClass s.disabled)
        cfg.shownClass s.display)
        cfg.hiddenClass (!s.display),
    innerHTML := (if s.loading then cfg.loadingHtml else cfg.defaultHtml) ++
      (if s.loading then cfg.loadingIcon else "") }

/-- `updateRender(stateData)` over all bound elements. -/
def updateRender (elems : List BoundBtn) (s : BtnState) : List BoundBtn :=
  elems.map fun b => { b with el := updateRenderElem b.cfg s b.el }

/-- A `useButton` cell. -/
structure ButtonCell where
  elems : List BoundBtn
  state : BtnState
  onSet : List (Watcher BtnWatchParams)
  onChange : List (Watcher BtnEffectParams)

/-- The bound element ids (the `dom` array exposed to watchers). -/
def ButtonCell.domIds (bc : ButtonCell) : List Nat :=
  bc.elems.map fun b => b.id

/-- `useButton`'s internal `set(value)`:
`hasChange = !isEqual(state, value)` — on two `{disabled, loading,
display}` objects with identical key order and boolean fields this is
exactly field-wise equality (`isEqual_btnStateValue` below proves the
correspondence) — then the state object is replaced, the DOM re-rendered
via `updateRender`, and the set/change watcher pipeline runs exactly as in
`useState`; the new state is returned. -/
def btnSet (bc : ButtonCell) (v : BtnState) :
    ButtonCell × List Event × BtnState :=
  let hasChange := !(bc.state == v)
  let elems := updateRender bc.elems v
  let rs := runWatchers Event.btnSetCbRun ⟨bc.domIds, v, hasChange⟩ bc.onSet
  let rc :=
    if hasChange then runWatchers Event.btnChangeCbRun ⟨bc.domIds, v⟩ bc.onChange
    else (bc.onChange, [])
  ({ bc with state := v, elems := elems, onSet := rs.1, onChange := rc.1 },
    rs.2 ++ rc.2, v)

/-- `stateAPI.loading(isLoading)`:
`set({ ...state, loading: isLoading, disabled: isLoading })`. -/
def btnLoading (bc : ButtonCell) (isLoading : Bool) :
    ButtonCell × List Event × BtnState :=
  btnSet bc { bc.state with loading := isLoading, disabled := isLoading }

/-- The `{disabled, loading, display}` state as the JS object it is in the
source (key order as written in `useButton`). -/
def btnStateValue (ref : Nat) (s : BtnState) : Value :=
  .obj ref [("disabled", .bool s.disabled), ("loading", .bool s.loading),
    ("display", .bool s.display)]

/-! ## Event extraction helpers -/

/-- The payloads of the set-watcher invocations in a trace, in order. -/
def setCbPayloads (evs : List Event) : List WatchParams :=
  evs.filterMap fun e => match e with
    | .setCbRun p => some p
    | _ => none

/-- The payloads of the change-watcher invocations in a trace, in order. -/
def changeCbPayloads (evs : List Event) : List WatchEffectParams :=
  evs.filterMap fun e => match e with
    | .changeCbRun p => some p
    | _ => none

/-- The scheduler requests issued in a trace, in order. -/
def schedReqs (evs : List Event) : List Nat :=
  evs.filterMap fun e => match e with
    | .schedReq j => some j
    | _ => none

/-- The number of `useEffect`-callback executions in a trace. -/
def effectRuns (evs : List Event) : Nat :=
  (evs.filter fun e => match e with
    | .effectCbRun => true
    | _ => false).length


/-! ## Concrete sample data (used in counterexamples and witnesses) -/

/-- A watcher callback that does nothing and returns no cleanup. -/
def noopWatchCb : WatchParams → CbOutcome := fun _ => ⟨[], .retVal⟩

/-- A change-watcher callback that does nothing and returns no cleanup. -/
def noopEffectCb : WatchEffectParams → CbOutcome := fun _ => ⟨[], .retVal⟩

/-- A cell currently holding `NaN`, with one watcher on each channel. -/
def nanCell : CellState :=
  ⟨[], .num .nan, [⟨noopWatchCb, none⟩], [⟨noopEffectCb, none⟩]⟩

/-- A cell currently holding the number `0`, one watcher per channel. -/
def zeroCell : CellState :=
  ⟨[], .num (.fin 0), [⟨noopWatchCb, none⟩], [⟨noopEffectCb, none⟩]⟩

/-- Cells carrying the subscription watcher a `useEffect(cb, null)` with
job id `5` installs (as `useEffectRun` does). -/
def effCell1 : CellState := ⟨[], .num (.fin 0), [], [⟨schedulerCb 5, none⟩]⟩

/-- Second such cell, holding a different value. -/
def effCell2 : CellState := ⟨[], .num (.fin 10), [], [⟨schedulerCb 5, none⟩]⟩

/-- A job behavior where executing job `0` schedules job `1` (reentrant
scheduling during a flush); all other jobs schedule nothing. -/
def behChain : Nat → List Nat := fun j => if j == 0 then [1] else []

/-- The trivial job behavior: no job schedules anything. -/
def behNone : Nat → List Nat := fun _ => []

/-! ## Basic facts about `strictEq` and `isEqual` -/

theorem strictEq_self : ∀ {v : Value}, v.isNaN = false → strictEq v v = true
  | .undef, _ => rfl
  | .vnull, _ => rfl
  | .bool b, _ => by simp [strictEq]
  | .num .nan, h => by simp [Value.isNaN] at h
  | .num (.fin x), _ => by simp [strictEq]
  | .str s, _ => by simp [strictEq]
  | .arr r xs, _ => by simp [strictEq]
  | .obj r fs, _ => by simp [strictEq]

/-- Reflexivity of `isEqual` away from `NaN` (the `a === b` short-circuit). -/
theorem isEqual_self {v : Value} (h : v.isNaN = false) : isEqual v v = true := by
  rw [isEqual]
  simp [strictEq_self h]

/-- `isEqual(NaN, NaN)` is `false`: `NaN === NaN` fails, `typeof` agrees,
and `NaN` is neither an array nor truthy, so every structural case falls
through to the final `return false`. -/
theorem isEqual_nan_nan : isEqual (.num .nan) (.num .nan) = false := by
  rw [isEqual]
  decide

theorem isEqual_bool (x y : Bool) : isEqual (.bool x) (.bool y) = (x == y) := by
  cases x <;> cases y <;> (rw [isEqual]; decide)

theorem isEqual_fin (a b : Int) :
    isEqual (.num (.fin a)) (.num (.fin b)) = (a == b) := by
  rcases eq_or_ne a b with h | h
  · subst h
    rw [isEqual]
    simp [strictEq]
  · rw [isEqual]
    simp [strictEq, typeof, isArray, truthy, h]

/-- A value deep-equals `undefined` only if it is `undefined`. -/
theorem isEqual_undef_iff {x : Value} : isEqual x .undef = true ↔ x = .undef := by
  constructor
  · intro h
    cases x with
    | undef => rfl
    | vnull => rw [isEqual] at h; simp [strictEq, typeof] at h
    | bool b => rw [isEqual] at h; simp [strictEq, typeof] at h
    | num n =>
        cases n with
        | nan => rw [isEqual] at h; simp [strictEq, typeof] at h
        | fin x => rw [isEqual] at h; simp [strictEq, typeof] at h
    | str s => rw [isEqual] at h; simp [strictEq, typeof] at h
    | arr r xs => rw [isEqual] at h; simp [strictEq, typeof] at h
    | obj r fs => rw [isEqual] at h; simp [strictEq, typeof] at h
  · rintro rfl
    rw [isEqual]
    decide

/-- Reading an absent key of an object yields `undefined`. -/
theorem getProp_obj_not_mem {r : Nat} {fs : List (String × Value)} {k : String}
    (h : k ∉ fs.map Prod.fst) : getProp (.obj r fs) k = .undef := by
  rw [getProp]
  have hn : fs.find? (fun f => f.1 == k) = none := by
    rw [List.find?_eq_none]
    intro f hf
    simp only [beq_iff_eq]
    intro hk
    exact h (List.mem_map.mpr ⟨f, hf, hk⟩)
  rw [hn]

/-- Reading a present key of an object yields the value of one of its
fields (the first one carrying that key). -/
theorem getProp_obj_mem {r : Nat} {fs : List (String × Value)} {k : String}
    (h : k ∈ fs.map Prod.fst) :
    ∃ f ∈ fs, f.1 = k ∧ getProp (.obj r fs) k = f.2 := by
  obtain ⟨f0, hf0, hk0⟩ := List.mem_map.mp h
  have hex : (fs.find? (fun f => f.1 == k)).isSome := by
    rw [List.find?_isSome]
    exact ⟨f0, hf0, by simp [hk0]⟩
  obtain ⟨f, hf⟩ := Option.isSome_iff_exists.mp hex
  refine ⟨f, List.mem_of_find?_eq_some hf, ?_, ?_⟩
  · have := List.find?_some hf
    simpa using this
  · rw [getProp, hf]

/-- Unfolding of `isEqual` on two distinct plain objects: the key-count
check followed by the recursion over the first object's keys. -/
theorem isEqual_obj_iff {ra rb : Nat} {fs gs : List (String × Value)}
    (href : ra ≠ rb) :
    isEqual (.obj ra fs) (.obj rb gs) = true ↔
      fs.length = gs.length ∧
        ∀ k ∈ fs.map Prod.fst,
          isEqual (getProp (.obj ra fs) k) (getProp (.obj rb gs) k) = true := by
  rw [isEqual]
  simp [strictEq, typeof, isArray, truthy, objKeys, href, List.all_eq_true]


/-! ## Traces of the watcher loops -/

theorem setCbPayloads_append (a b : List Event) :
    setCbPayloads (a ++ b) = setCbPayloads a ++ setCbPayloads b := by
  simp [setCbPayloads, List.filterMap_append]

theorem changeCbPayloads_append (a b : List Event) :
    changeCbPayloads (a ++ b) = changeCbPayloads a ++ changeCbPayloads b := by
  simp [changeCbPayloads, List.filterMap_append]

theorem schedReqs_append (a b : List Event) :
    schedReqs (a ++ b) = schedReqs a ++ schedReqs b := by
  simp [schedReqs, List.filterMap_append]

theorem setCbPayloads_schedReq_map (js : List Nat) :
    setCbPayloads (js.map Event.schedReq) = [] := by
  simp [setCbPayloads, List.filterMap_map]

theorem changeCbPayloads_schedReq_map (js : List Nat) :
    changeCbPayloads (js.map Event.schedReq) = [] := by
  simp [changeCbPayloads, List.filterMap_map]

theorem schedReqs_schedReq_map (js : List Nat) :
    schedReqs (js.map Event.schedReq) = js := by
  induction js with
  | nil => rfl
  | cons j t ih => simpa [schedReqs] using ih

theorem setCbPayloads_single_set (p : WatchParams) :
    setCbPayloads [Event.setCbRun p] = [p] := rfl

theorem changeCbPayloads_single_set (p : WatchParams) :
    changeCbPayloads [Event.setCbRun p] = [] := rfl

theorem schedReqs_single_set (p : WatchParams) :
    schedReqs [Event.setCbRun p] = [] := rfl

theorem setCbPayloads_single_change (p : WatchEffectParams) :
    setCbPayloads [Event.changeCbRun p] = [] := rfl

theorem changeCbPayloads_single_change (p : WatchEffectParams) :
    changeCbPayloads [Event.changeCbRun p] = [p] := rfl

theorem schedReqs_single_change (p : WatchEffectParams) :
    schedReqs [Event.changeCbRun p] = [] := rfl

theorem setCbPayloads_single_cleanup (c : CleanupBehavior) :
    setCbPayloads [Event.cleanupRun c] = [] := rfl

theorem changeCbPayloads_single_cleanup (c : CleanupBehavior) :
    changeCbPayloads [Event.cleanupRun c] = [] := rfl

theorem schedReqs_single_cleanup (c : CleanupBehavior) :
    schedReqs [Event.cleanupRun c] = [] := rfl

theorem setCbPayloads_cons_cleanup (c : CleanupBehavior) (t : List Event) :
    setCbPayloads (Event.cleanupRun c :: t) = setCbPayloads t := by
  simp [setCbPayloads, List.filterMap_cons]

theorem setCbPayloads_cons_set (p : WatchParams) (t : List Event) :
    setCbPayloads (Event.setCbRun p :: t) = p :: setCbPayloads t := by
  simp [setCbPayloads, List.filterMap_cons]

theorem setCbPayloads_cons_change (p : WatchEffectParams) (t : List Event) :
    setCbPayloads (Event.changeCbRun p :: t) = setCbPayloads t := by
  simp [setCbPayloads, List.filterMap_cons]

theorem changeCbPayloads_cons_cleanup (c : CleanupBehavior) (t : List Event) :
    changeCbPayloads (Event.cleanupRun c :: t) = changeCbPayloads t := by
  simp [changeCbPayloads, List.filterMap_cons]

theorem changeCbPayloads_cons_set (p : WatchParams) (t : List Event) :
    changeCbPayloads (Event.setCbRun p :: t) = changeCbPayloads t := by
  simp [changeCbPayloads, List.filterMap_cons]

theorem changeCbPayloads_cons_change (p : WatchEffectParams) (t : List Event) :
    changeCbPayloads (Event.changeCbRun p :: t) = p :: changeCbPayloads t := by
  simp [changeCbPayloads, List.filterMap_cons]

theorem schedReqs_cons_cleanup (c : CleanupBehavior) (t : List Event) :
    schedReqs (Event.cleanupRun c :: t) = schedReqs t := by
  simp [schedReqs, List.filterMap_cons]

theorem schedReqs_cons_set (p : WatchParams) (t : List Event) :
    schedReqs (Event.setCbRun p :: t) = schedReqs t := by
  simp [schedReqs, List.filterMap_cons]

theorem schedReqs_cons_change (p : WatchEffectParams) (t : List Event) :
    schedReqs (Event.changeCbRun p :: t) = schedReqs t := by
  simp [schedReqs, List.filterMap_cons]

theorem setCbPayloads_runWatcher_set (p : WatchParams) (w : Watcher WatchParams) :
    setCbPayloads (runWatcher Event.setCbRun p w).2 = [p] := by
  cases hc : w.cleanup <;>
    simp [runWatcher, hc, setCbPayloads_append, setCbPayloads_single_cleanup,
      setCbPayloads_single_set, setCbPayloads_schedReq_map,
      setCbPayloads_cons_cleanup, setCbPayloads_cons_set]

theorem changeCbPayloads_runWatcher_set (p : WatchParams) (w : Watcher WatchParams) :
    changeCbPayloads (runWatcher Event.setCbRun p w).2 = [] := by
  cases hc : w.cleanup <;>
    simp [runWatcher, hc, changeCbPayloads_append, changeCbPayloads_single_cleanup,
      changeCbPayloads_single_set, changeCbPayloads_schedReq_map,
      changeCbPayloads_cons_cleanup, changeCbPayloads_cons_set]

theorem schedReqs_runWatcher_set (p : WatchParams) (w : Watcher WatchParams) :
    schedReqs (runWatcher Event.setCbRun p w).2 = (w.cb p).schedules := by
  cases hc : w.cleanup <;>
    simp [runWatcher, hc, schedReqs_append, schedReqs_single_cleanup,
      schedReqs_single_set, schedReqs_schedReq_map,
      schedReqs_cons_cleanup, schedReqs_cons_set]

theorem setCbPayloads_runWatcher_change (p : WatchEffectParams)
    (w : Watcher WatchEffectParams) :
    setCbPayloads (runWatcher Event.changeCbRun p w).2 = [] := by
  cases hc : w.cleanup <;>
    simp [runWatcher, hc, setCbPayloads_append, setCbPayloads_single_cleanup,
      setCbPayloads_single_change, setCbPayloads_schedReq_map,
      setCbPayloads_cons_cleanup, setCbPayloads_cons_change]

theorem changeCbPayloads_runWatcher_change (p : WatchEffectParams)
    (w : Watcher WatchEffectParams) :
    changeCbPayloads (runWatcher Event.changeCbRun p w).2 = [p] := by
  cases hc : w.cleanup <;>
    simp [runWatcher, hc, changeCbPayloads_append, changeCbPayloads_single_cleanup,
      changeCbPayloads_single_change, changeCbPayloads_schedReq_map,
      changeCbPayloads_cons_cleanup, changeCbPayloads_cons_change]

theorem schedReqs_runWatcher_change (p : WatchEffectParams)
    (w : Watcher WatchEffectParams) :
    schedReqs (runWatcher Event.changeCbRun p w).2 = (w.cb p).schedules := by
  cases hc : w.cleanup <;>
    simp [runWatcher, hc, schedReqs_append, schedReqs_single_cleanup,
      schedReqs_single_change, schedReqs_schedReq_map,
      schedReqs_cons_cleanup, schedReqs_cons_change]

/-- Every set-watcher is invoked exactly once, in registration order, with
the same payload. -/
theorem setCbPayloads_runWatchers (p : WatchParams) (ws : List (Watcher WatchParams)) :
    setCbPayloads (runWatchers Event.setCbRun p ws).2 =
      List.replicate ws.length p := by
  induction ws with
  | nil => rfl
  | cons w t ih =>
      simp only [runWatchers]
      rw [setCbPayloads_append, setCbPayloads_runWatcher_set, ih]
      simp [List.replicate_succ]

/-- The set-watcher loop invokes no change-watcher. -/
theorem changeCbPayloads_runWatchers_set (p : WatchParams)
    (ws : List (Watcher WatchParams)) :
    changeCbPayloads (runWatchers Event.setCbRun p ws).2 = [] := by
  induction ws with
  | nil => rfl
  | cons w t ih =>
      simp only [runWatchers]
      rw [changeCbPayloads_append, changeCbPayloads_runWatcher_set, ih]
      rfl

/-- Every change-watcher is invoked exactly once, in registration order,
with the same payload. -/
theorem changeCbPayloads_runWatchers (p : WatchEffectParams)
    (ws : List (Watcher WatchEffectParams)) :
    changeCbPayloads (runWatchers Event.changeCbRun p ws).2 =
      List.replicate ws.length p := by
  induction ws with
  | nil => rfl
  | cons w t ih =>
      simp only [runWatchers]
      rw [changeCbPayloads_append, changeCbPayloads_runWatcher_change, ih]
      simp [List.replicate_succ]

/-- The change-watcher loop invokes no set-watcher. -/
theorem setCbPayloads_runWatchers_change (p : WatchEffectParams)
    (ws : List (Watcher WatchEffectParams)) :
    setCbPayloads (runWatchers Event.changeCbRun p ws).2 = [] := by
  induction ws with
  | nil => rfl
  | cons w t ih =>
      simp only [runWatchers]
      rw [setCbPayloads_append, setCbPayloads_runWatcher_change, ih]
      rfl

/-- The scheduler requests the set-watcher loop emits are exactly the
watchers' own requests, in order. -/
theorem schedReqs_runWatchers_set (p : WatchParams)
    (ws : List (Watcher WatchParams)) :
    schedReqs (runWatchers Event.setCbRun p ws).2 =
      ws.flatMap fun w => (w.cb p).schedules := by
  induction ws with
  | nil => rfl
  | cons w t ih =>
      simp only [runWatchers]
      rw [schedReqs_append, schedReqs_runWatcher_set, ih]
      simp

/-- Same for the change-watcher loop. -/
theorem schedReqs_runWatchers_change (p : WatchEffectParams)
    (ws : List (Watcher WatchEffectParams)) :
    schedReqs (runWatchers Event.changeCbRun p ws).2 =
      ws.flatMap fun w => (w.cb p).schedules := by
  induction ws with
  | nil => rfl
  | cons w t ih =>
      simp only [runWatchers]
      rw [schedReqs_append, schedReqs_runWatcher_change, ih]
      simp


/-! ## Claim theorems -/

/-- The set-watcher payloads a `setRun` emits. -/
theorem setRun_setCbPayloads (st : CellState) (v : Value) :
    setCbPayloads (setRun st v).2.1 =
      List.replicate st.onSet.length ⟨st.dom, v, !isEqual st.data v⟩ := by
  by_cases hch : isEqual st.data v = true
  · simp [setRun, hch, setCbPayloads_append, setCbPayloads_runWatchers]
  · simp only [Bool.not_eq_true] at hch
    simp [setRun, hch, setCbPayloads_append, setCbPayloads_runWatchers,
      setCbPayloads_runWatchers_change]

/-- The change-watcher payloads a `setRun` emits. -/
theorem setRun_changeCbPayloads (st : CellState) (v : Value) :
    changeCbPayloads (setRun st v).2.1 =
      (if isEqual st.data v then []
       else List.replicate st.onChange.length ⟨st.dom, v⟩) := by
  by_cases hch : isEqual st.data v = true
  · simp [setRun, hch, changeCbPayloads_append, changeCbPayloads_runWatchers_set]
  · simp only [Bool.not_eq_true] at hch
    simp [setRun, hch, changeCbPayloads_append, changeCbPayloads_runWatchers_set,
      changeCbPayloads_runWatchers]

/-- **C1**: for every cell and every `set(v)` with a plain value: the
stored current value is always overwritten with the next value (even when
structurally equal to the old one), every registered set-watcher is
invoked exactly once with a payload whose `hasChange` field equals
`!isEqual(old, next)`, the change-watchers are invoked (each exactly once)
if and only if `!isEqual(old, next)`, and `set` returns the next value. -/
theorem spec_C1_set_pipeline (st : CellState) (v : Value) :
    (setRun st v).2.2 = v ∧
    (setRun st v).1.data = v ∧
    setCbPayloads (setRun st v).2.1 =
      List.replicate st.onSet.length ⟨st.dom, v, !isEqual st.data v⟩ ∧
    changeCbPayloads (setRun st v).2.1 =
      (if isEqual st.data v then []
       else List.replicate st.onChange.length ⟨st.dom, v⟩) ∧
    setOp st (.val v) = .ok (setRun st v) := by
  exact ⟨rfl, rfl, setRun_setCbPayloads st v, setRun_changeCbPayloads st v, rfl⟩

/-- **C10**: `isEqual(NaN, NaN)` is `false` (NaN is not `===` to itself
and falls through every structural case of `isEqual`); consequently, for a
cell whose current value is `NaN`, `set(NaN)` reports `hasChange = true`
to every set-watcher and fires every change-watcher — and since the stored
value is again `NaN` afterwards, the same happens on every further
`set(NaN)`. -/
theorem spec_C10_nan_set (st : CellState) (h : st.data = .num .nan) :
    isEqual (.num .nan) (.num .nan) = false ∧
    (setRun st (.num .nan)).1.data = .num .nan ∧
    setCbPayloads (setRun st (.num .nan)).2.1 =
      List.replicate st.onSet.length ⟨st.dom, .num .nan, true⟩ ∧
    changeCbPayloads (setRun st (.num .nan)).2.1 =
      List.replicate st.onChange.length ⟨st.dom, .num .nan⟩ := by
  refine ⟨isEqual_nan_nan, rfl, ?_, ?_⟩
  · simp [setRun, h, isEqual_nan_nan, setCbPayloads_append,
      setCbPayloads_runWatchers, setCbPayloads_runWatchers_change]
  · simp [setRun, h, isEqual_nan_nan, changeCbPayloads_append,
      changeCbPayloads_runWatchers_set, changeCbPayloads_runWatchers]

/-- **C10 witness**: the concrete `NaN` cell. -/
theorem spec_C10_nan_set_witness :
    nanCell.data = .num .nan ∧
    setCbPayloads (setRun nanCell (.num .nan)).2.1 = [⟨[], .num .nan, true⟩] := by
  have h := spec_C10_nan_set nanCell rfl
  exact ⟨rfl, by simpa [nanCell] using h.2.2.1⟩

/-- **C9 counterexample**: with current value `NaN`, the identity updater
`x => x` yields `hasChange = true` — the set-watcher payload carries
`hasChange = true` and the change-watcher fires — refuting
"`cell.set(x => x)` on any current value yields `hasChange = false`". -/
theorem spec_C9_counterexample :
    setOp nanCell (.fn fun x => .ok x) = .ok (setRun nanCell (.num .nan)) ∧
    setCbPayloads (setRun nanCell (.num .nan)).2.1 = [⟨[], .num .nan, true⟩] ∧
    changeCbPayloads (setRun nanCell (.num .nan)).2.1 = [⟨[], .num .nan⟩] := by
  refine ⟨rfl, ?_, ?_⟩
  · simp [setRun, nanCell, isEqual_nan_nan, setCbPayloads_append,
      setCbPayloads_runWatchers, setCbPayloads_runWatchers_change]
  · simp [setRun, nanCell, isEqual_nan_nan, changeCbPayloads_append,
      changeCbPayloads_runWatchers_set, changeCbPayloads_runWatchers]

/-- **C9 (amended)**: `cell.set(x => x)` yields `hasChange = false` in
every set-watcher payload and fires no change-watcher for every current
value OTHER than `NaN` (the identity updater returns the same reference,
and `a === b` short-circuits `isEqual` — except for `NaN`, which is not
`===` to itself; for a `NaN`-valued cell `hasChange` is `true`, see the
counterexample). -/
theorem spec_C9_identity_updater (st : CellState) (h : st.data.isNaN = false) :
    setOp st (.fn fun x => .ok x) = .ok (setRun st st.data) ∧
    setCbPayloads (setRun st st.data).2.1 =
      List.replicate st.onSet.length ⟨st.dom, st.data, false⟩ ∧
    changeCbPayloads (setRun st st.data).2.1 = [] := by
  refine ⟨rfl, ?_, ?_⟩
  · simp [setRun, isEqual_self h, setCbPayloads_append, setCbPayloads_runWatchers]
  · simp [setRun, isEqual_self h, changeCbPayloads_append,
      changeCbPayloads_runWatchers_set]

/-- **C9 witness**: the identity updater on a cell holding `0`. -/
theorem spec_C9_identity_updater_witness :
    zeroCell.data.isNaN = false ∧
    setCbPayloads (setRun zeroCell zeroCell.data).2.1 =
      [⟨[], .num (.fin 0), false⟩] := by
  have h := spec_C9_identity_updater zeroCell rfl
  exact ⟨rfl, by simpa [zeroCell] using h.2.1⟩

/-- **C6 counterexample**: an exception thrown by a functional updater
passed to `set` is NOT caught — `value = value(data)` runs outside any
try/catch, so the exception propagates to the caller of `set` (refuting
the claim for updaters). -/
theorem spec_C6_counterexample :
    setOp zeroCell (.fn fun _ => .error ()) = .error () := rfl

/-- **C6 (amended)**: exceptions thrown by watcher callbacks and by their
cleanups are caught inside the library (`safeRun` / `safeRunCleanUp`) and
never propagate: `set` with a plain value returns normally for EVERY
watcher list — including watchers whose callbacks or pending cleanups
throw — and every sibling watcher of the same mutation still runs; a
functional updater that returns normally behaves the same; but an
exception from the functional updater itself propagates to the caller of
`set` (see the counterexample). -/
theorem spec_C6_callback_isolation (st : CellState) (v : Value)
    (f : Value → Except Unit Value) :
    setOp st (.val v) = .ok (setRun st v) ∧
    (setCbPayloads (setRun st v).2.1).length = st.onSet.length ∧
    (changeCbPayloads (setRun st v).2.1).length =
      (if isEqual st.data v then 0 else st.onChange.length) ∧
    (∀ w, f st.data = .ok w → setOp st (.fn f) = .ok (setRun st w)) ∧
    (∀ e, f st.data = .error e → setOp st (.fn f) = .error e) := by
  refine ⟨rfl, ?_, ?_, ?_, ?_⟩
  · rw [setRun_setCbPayloads st v]
    simp
  · rw [setRun_changeCbPayloads st v]
    by_cases hch : isEqual st.data v = true <;> simp [hch]
  · intro w hw
    simp [setOp, hw]
  · intro e he
    simp [setOp, he]


/-- **C6 witness**: a normal updater goes through; a throwing updater
escapes. -/
theorem spec_C6_callback_isolation_witness :
    setOp zeroCell (.fn fun x => .ok x) = .ok (setRun zeroCell (.num (.fin 0))) ∧
    setOp zeroCell (.fn fun _ => .error ()) = .error () := by
  constructor
  · exact (spec_C6_callback_isolation zeroCell (.num (.fin 1))
      (fun x => .ok x)).2.2.2.1 (.num (.fin 0)) rfl
  · exact (spec_C6_callback_isolation zeroCell (.num (.fin 1))
      (fun _ => .error ())).2.2.2.2 () rfl

/-- **C2 counterexample**: `{x: undefined}` and `{y: undefined}` have
different key sets yet `isEqual` returns `true` — the code only compares
key COUNTS and the values at the FIRST object's keys, and a key absent
from the second object reads as `undefined`. -/
theorem spec_C2_counterexample :
    isEqual (.obj 0 [("x", .undef)]) (.obj 1 [("y", .undef)]) = true ∧
    objKeys (.obj 0 [("x", .undef)]) ≠ objKeys (.obj 1 [("y", .undef)]) := by
  constructor
  · rw [isEqual]
    simp only [strictEq, typeof, isArray, truthy, objKeys, arrElems, getProp]
    norm_num
    exact isEqual_self rfl
  · decide

/-- **C2 (amended)**: for two distinct plain objects, `equal(a, b)` is
`true` iff they have the same NUMBER of keys and, for every key `k` of
`a`, `a[k]` is recursively equal to `b[k]` (an absent key reading as
`undefined`).  The original "same key set" phrasing holds only in the
absence of `undefined`-valued properties: when additionally no value of
`a` is `undefined` (keys being duplicate-free, as JS object keys are),
`equal(a, b) = true` does force equal key sets. -/
theorem spec_C2_object_equality (ra rb : Nat) (fs gs : List (String × Value))
    (href : ra ≠ rb) :
    (isEqual (.obj ra fs) (.obj rb gs) = true ↔
      fs.length = gs.length ∧
        ∀ k ∈ fs.map Prod.fst,
          isEqual (getProp (.obj ra fs) k) (getProp (.obj rb gs) k) = true) ∧
    ((fs.map Prod.fst).Nodup → (gs.map Prod.fst).Nodup →
      (∀ f ∈ fs, f.2 ≠ .undef) →
      isEqual (.obj ra fs) (.obj rb gs) = true →
      ∀ k, k ∈ fs.map Prod.fst ↔ k ∈ gs.map Prod.fst) := by
  refine ⟨isEqual_obj_iff href, ?_⟩
  intro hA hB hundef hEq k
  obtain ⟨hlen, hall⟩ := (isEqual_obj_iff href).mp hEq
  have hsub : ∀ k0 ∈ fs.map Prod.fst, k0 ∈ gs.map Prod.fst := by
    intro k0 hk0
    by_contra hkB
    have hB0 : getProp (.obj rb gs) k0 = .undef := getProp_obj_not_mem hkB
    have h1 := hall k0 hk0
    rw [hB0] at h1
    have hA0 : getProp (.obj ra fs) k0 = .undef := isEqual_undef_iff.mp h1
    obtain ⟨f, hf, hfk, hfv⟩ := getProp_obj_mem (r := ra) hk0
    exact hundef f hf (by rw [← hfv, hA0])
  constructor
  · exact hsub k
  · intro hk
    have hlen2 : (fs.map Prod.fst).length = (gs.map Prod.fst).length := by
      simpa using hlen
    have hfin : (fs.map Prod.fst).toFinset = (gs.map Prod.fst).toFinset := by
      apply Finset.eq_of_subset_of_card_le
      · intro x hx
        rw [List.mem_toFinset] at hx ⊢
        exact hsub x hx
      · rw [List.toFinset_card_of_nodup hB, List.toFinset_card_of_nodup hA, hlen2]
    have hk2 : k ∈ (gs.map Prod.fst).toFinset := List.mem_toFinset.mpr hk
    rw [← hfin] at hk2
    exact List.mem_toFinset.mp hk2

/-- **C2 witness**: a pair of distinct same-keyed objects compared
through the amended characterization. -/
theorem spec_C2_object_equality_witness :
    isEqual (.obj 0 [("a", .num (.fin 1))]) (.obj 1 [("a", .num (.fin 1))]) = true := by
  have h := (spec_C2_object_equality 0 1 [("a", .num (.fin 1))]
    [("a", .num (.fin 1))] (by decide)).1
  apply h.mpr
  refine ⟨rfl, ?_⟩
  intro k hk
  simp only [List.map_cons, List.map_nil, List.mem_singleton] at hk
  subst hk
  show isEqual (.num (.fin 1)) (.num (.fin 1)) = true
  exact isEqual_self rfl


/-! ## Scheduler lemmas -/

theorem mem_foldl_schedAdd_of_mem_pend {vis : List Nat} {x : Nat} (js : List Nat) :
    ∀ {pend : List Nat}, x ∈ pend → x ∈ js.foldl (schedAdd vis) pend := by
  induction js with
  | nil => intro pend h; exact h
  | cons j t ih =>
      intro pend h
      rw [List.foldl_cons]
      apply ih
      unfold schedAdd
      split
      · exact h
      · exact List.mem_append_left _ h

theorem mem_foldl_schedAdd {vis : List Nat} {x : Nat} (js : List Nat) :
    ∀ {pend : List Nat}, x ∈ js.foldl (schedAdd vis) pend → x ∈ pend ∨ x ∈ js := by
  induction js with
  | nil => intro pend h; exact .inl h
  | cons j t ih =>
      intro pend h
      rw [List.foldl_cons] at h
      rcases ih h with h1 | h1
      · unfold schedAdd at h1
        split at h1
        · exact .inl h1
        · rcases List.mem_append.mp h1 with h2 | h2
          · exact .inl h2
          · simp only [List.mem_singleton] at h2
            exact .inr (h2 ▸ List.mem_cons_self j t)
      · exact .inr (List.mem_cons_of_mem j h1)

theorem foldl_schedAdd_of_mem {vis : List Nat} {k : Nat} (js : List Nat)
    (hnv : k ∉ vis) :
    ∀ {pend : List Nat}, k ∈ js → k ∈ js.foldl (schedAdd vis) pend := by
  induction js with
  | nil => intro pend h; cases h
  | cons j t ih =>
      intro pend hk
      rw [List.foldl_cons]
      rcases List.mem_cons.mp hk with rfl | h
      · apply mem_foldl_schedAdd_of_mem_pend
        unfold schedAdd
        split
        · rename_i h2
          rcases h2 with h3 | h3
          · exact absurd h3 hnv
          · exact h3
        · exact List.mem_append_right _ (List.mem_singleton_self k)
      · exact ih h

theorem foldl_schedAdd_nodup_disjoint {vis : List Nat} (js : List Nat) :
    ∀ {pend : List Nat}, pend.Nodup → (∀ x ∈ pend, x ∉ vis) →
      (js.foldl (schedAdd vis) pend).Nodup ∧
        ∀ x ∈ js.foldl (schedAdd vis) pend, x ∉ vis := by
  induction js with
  | nil => intro pend h1 h2; exact ⟨h1, h2⟩
  | cons j t ih =>
      intro pend h1 h2
      rw [List.foldl_cons]
      apply ih
      · unfold schedAdd
        split
        · exact h1
        · rename_i hj
          push_neg at hj
          rw [List.nodup_append]
          exact ⟨h1, List.nodup_singleton j,
            fun x hx hx2 => hj.2 ((List.mem_singleton.mp hx2) ▸ hx)⟩
      · intro x hx
        unfold schedAdd at hx
        split at hx
        · exact h2 x hx
        · rename_i hj
          push_neg at hj
          rcases List.mem_append.mp hx with h3 | h3
          · exact h2 x h3
          · exact (List.mem_singleton.mp h3) ▸ hj.1

theorem flushSteps_nil (beh : Nat → List Nat) (fuel : Nat) (visited : List Nat) :
    flushSteps beh fuel visited [] = [] := by
  cases fuel <;> rfl

/-- A job that no executing job ever schedules and that is not pending is
never executed by a flush. -/
theorem flushSteps_not_mem {beh : Nat → List Nat} {job : Nat}
    (hbeh : ∀ i, job ∉ beh i) :
    ∀ (fuel : Nat) (visited pend : List Nat), job ∉ pend →
      job ∉ flushSteps beh fuel visited pend := by
  intro fuel
  induction fuel with
  | zero => intro _ _ _; simp [flushSteps]
  | succ f ih =>
      intro visited pend hp
      cases pend with
      | nil => simp [flushSteps_nil]
      | cons j rest =>
          rw [flushSteps]
          intro hmem
          rcases List.mem_cons.mp hmem with rfl | h
          · exact hp (List.mem_cons_self _ _)
          · refine ih _ _ ?_ h
            intro hmem2
            rcases mem_foldl_schedAdd _ hmem2 with h1 | h1
            · exact hp (List.mem_cons_of_mem _ h1)
            · exact hbeh j h1

/-- A flush executes each job at most once: its execution order is
duplicate-free (and avoids the already-visited jobs). -/
theorem flushSteps_nodup (beh : Nat → List Nat) :
    ∀ (fuel : Nat) (visited pend : List Nat), pend.Nodup →
      (∀ x ∈ pend, x ∉ visited) →
      (flushSteps beh fuel visited pend).Nodup ∧
        ∀ x ∈ flushSteps beh fuel visited pend, x ∉ visited := by
  intro fuel
  induction fuel with
  | zero =>
      intro _ _ _ _
      refine ⟨by simp [flushSteps], by simp [flushSteps]⟩
  | succ f ih =>
      intro visited pend hnd hdisj
      cases pend with
      | nil => simp [flushSteps_nil]
      | cons j rest =>
          rw [flushSteps]
          have hjrest : j ∉ rest := (List.nodup_cons.mp hnd).1
          have hrest_nd : rest.Nodup := (List.nodup_cons.mp hnd).2
          have hjvis : j ∉ visited := hdisj j (List.mem_cons_self _ _)
          have hdisj2 : ∀ x ∈ rest, x ∉ visited ++ [j] := by
            intro x hx hx2
            rcases List.mem_append.mp hx2 with h3 | h3
            · exact hdisj x (List.mem_cons_of_mem _ hx) h3
            · exact hjrest ((List.mem_singleton.mp h3) ▸ hx)
          obtain ⟨hnd2, hdisj3⟩ :=
            foldl_schedAdd_nodup_disjoint (beh j)
              hrest_nd hdisj2
          obtain ⟨IH1, IH2⟩ := ih (visited ++ [j]) _ hnd2 hdisj3
          constructor
          · rw [List.nodup_cons]
            refine ⟨fun hj => IH2 j hj (by simp), IH1⟩
          · intro x hx
            rcases List.mem_cons.mp hx with rfl | hx2
            · exact hjvis
            · exact fun hxv => IH2 x hx2 (List.mem_append_left _ hxv)

/-- With job ids drawn from a finite universe `[0, n)` and fuel at least
`n`, a flush executes EVERY pending job (the JS `Set.forEach` loop visits
every member, including those inserted during the iteration). -/
theorem flushSteps_complete {beh : Nat → List Nat} {n : Nat}
    (hbeh : ∀ i, ∀ x ∈ beh i, x < n) :
    ∀ (fuel : Nat) (visited pend : List Nat),
      visited.Nodup → pend.Nodup →
      (∀ x ∈ visited, x < n) → (∀ x ∈ pend, x < n) →
      (∀ x ∈ pend, x ∉ visited) →
      n ≤ fuel + visited.length →
      ∀ x ∈ pend, x ∈ flushSteps beh fuel visited pend := by
  intro fuel
  induction fuel with
  | zero =>
      intro visited pend hvnd hpnd hvlt hplt hdisj hn x hx
      exfalso
      have hcard : visited.toFinset.card = visited.length :=
        List.toFinset_card_of_nodup hvnd
      have hsub : visited.toFinset ⊆ Finset.range n := by
        intro y hy
        rw [Finset.mem_range]
        exact hvlt y (List.mem_toFinset.mp hy)
      have hrange : visited.toFinset = Finset.range n := by
        apply (Finset.eq_of_subset_of_card_le hsub ?_).symm.symm
        rw [hcard, Finset.card_range]
        omega
      have hxv : x ∈ visited := by
        have : x ∈ visited.toFinset := by
          rw [hrange, Finset.mem_range]
          exact hplt x hx
        exact List.mem_toFinset.mp this
      exact hdisj x hx hxv
  | succ f ih =>
      intro visited pend hvnd hpnd hvlt hplt hdisj hn x hx
      cases pend with
      | nil => cases hx
      | cons j rest =>
          rw [flushSteps]
          rcases List.mem_cons.mp hx with rfl | hx2
          · exact List.mem_cons_self _ _
          · apply List.mem_cons_of_mem
            have hjrest : j ∉ rest := (List.nodup_cons.mp hpnd).1
            have hrest_nd : rest.Nodup := (List.nodup_cons.mp hpnd).2
            have hjvis : j ∉ visited := hdisj j (List.mem_cons_self _ _)
            have hvnd2 : (visited ++ [j]).Nodup := by
              rw [List.nodup_append]
              exact ⟨hvnd, List.nodup_singleton j,
                fun y hy hy2 => hjvis ((List.mem_singleton.mp hy2) ▸ hy)⟩
            have hdisj2 : ∀ y ∈ rest, y ∉ visited ++ [j] := by
              intro y hy hy2
              rcases List.mem_append.mp hy2 with h3 | h3
              · exact hdisj y (List.mem_cons_of_mem _ hy) h3
              · exact hjrest ((List.mem_singleton.mp h3) ▸ hy)
            obtain ⟨hnd2, hdisj3⟩ :=
              foldl_schedAdd_nodup_disjoint (beh j)
                hrest_nd hdisj2
            have hvlt2 : ∀ y ∈ visited ++ [j], y < n := by
              intro y hy
              rcases List.mem_append.mp hy with h3 | h3
              · exact hvlt y h3
              · exact (List.mem_singleton.mp h3) ▸ hplt j (List.mem_cons_self _ _)
            have hplt2 : ∀ y ∈ (beh j).foldl (schedAdd (visited ++ [j])) rest, y < n := by
              intro y hy
              rcases mem_foldl_schedAdd _ hy with h3 | h3
              · exact hplt y (List.mem_cons_of_mem _ h3)
              · exact hbeh j y h3
            have hn2 : n ≤ f + (visited ++ [j]).length := by
              rw [List.length_append, List.length_singleton]
              omega
            exact ih (visited ++ [j]) _ hvnd2 hnd2 hvlt2 hplt2 hdisj3 hn2 x
              (mem_foldl_schedAdd_of_mem_pend _ hx2)

theorem drainFlushes_empty (beh : Nat → List Nat) (fuel : Nat) :
    ∀ m, drainFlushes beh fuel m [] = [] := by
  intro m
  induction m with
  | zero => rfl
  | succ k ih =>
      rw [drainFlushes]
      simp [flushRun, flushSteps_nil, ih]

theorem schedule_queue_mem (s : SchedState) (j x : Nat) :
    x ∈ (schedule s j).queue ↔ x ∈ s.queue ∨ x = j := by
  by_cases h : j ∈ s.queue
  · simp only [schedule, if_pos h]
    constructor
    · exact .inl
    · rintro (hx | rfl)
      · exact hx
      · exact h
  · simp [schedule, if_neg h]

theorem schedule_queue_nodup (s : SchedState) (j : Nat) (h : s.queue.Nodup) :
    (schedule s j).queue.Nodup := by
  by_cases hj : j ∈ s.queue
  · simpa [schedule, if_pos hj] using h
  · simp only [schedule, if_neg hj]
    rw [List.nodup_append]
    exact ⟨h, List.nodup_singleton j,
      fun x hx hx2 => hj ((List.mem_singleton.mp hx2) ▸ hx)⟩

theorem scheduleAll_queue_mem (js : List Nat) :
    ∀ (s : SchedState) (x : Nat),
      (x ∈ (scheduleAll s js).queue ↔ x ∈ s.queue ∨ x ∈ js) := by
  induction js with
  | nil => intro s x; simp [scheduleAll]
  | cons j t ih =>
      intro s x
      show x ∈ (scheduleAll (schedule s j) t).queue ↔ _
      rw [ih (schedule s j) x, schedule_queue_mem]
      simp [List.mem_cons]
      tauto

theorem scheduleAll_queue_nodup (js : List Nat) :
    ∀ (s : SchedState), s.queue.Nodup → (scheduleAll s js).queue.Nodup := by
  induction js with
  | nil => intro s h; exact h
  | cons j t ih =>
      intro s h
      exact ih (schedule s j) (schedule_queue_nodup s j h)

theorem scheduleAll_armed (js : List Nat) :
    ∀ (s : SchedState), (scheduleAll s js).flushesArmed = s.flushesArmed + js.length := by
  induction js with
  | nil => intro s; simp [scheduleAll]
  | cons j t ih =>
      intro s
      show (scheduleAll (schedule s j) t).flushesArmed = _
      rw [ih (schedule s j)]
      simp [schedule]
      omega

theorem scheduleAll_replicate_mem (j : Nat) (N : Nat) :
    ∀ (s : SchedState), j ∈ s.queue →
      (scheduleAll s (List.replicate N j)).queue = s.queue := by
  induction N with
  | zero => intro s _; rfl
  | succ m ih =>
      intro s hj
      rw [List.replicate_succ]
      show (scheduleAll (schedule s j) (List.replicate m j)).queue = _
      have hq : (schedule s j).queue = s.queue := by simp [schedule, if_pos hj]
      rw [ih (schedule s j) (by rw [hq]; exact hj), hq]

/-- N ≥ 1 synchronous `schedule(j)` calls from the idle scheduler leave a
single queue entry for `j` while arming `N` flush microtasks. -/
theorem scheduleAll_replicate (j N : Nat) (hN : 1 ≤ N) :
    (scheduleAll schedIdle (List.replicate N j)).queue = [j] ∧
    (scheduleAll schedIdle (List.replicate N j)).flushesArmed = N := by
  constructor
  · obtain ⟨m, rfl⟩ : ∃ m, N = m + 1 := ⟨N - 1, by omega⟩
    rw [List.replicate_succ]
    show (scheduleAll (schedule schedIdle j) (List.replicate m j)).queue = [j]
    have hq : (schedule schedIdle j).queue = [j] := by
      simp [schedule, schedIdle]
    rw [scheduleAll_replicate_mem j m (schedule schedIdle j)
      (by rw [hq]; exact List.mem_singleton_self j), hq]
  · rw [scheduleAll_armed]
    simp [schedIdle]


/-- The scheduler requests a `setRun` emits: those of the set-watchers,
followed — only on a change — by those of the change-watchers. -/
theorem setRun_schedReqs (st : CellState) (v : Value) :
    schedReqs (setRun st v).2.1 =
      (st.onSet.flatMap fun w => (w.cb ⟨st.dom, v, !isEqual st.data v⟩).schedules) ++
      (if isEqual st.data v then []
       else st.onChange.flatMap fun w => (w.cb ⟨st.dom, v⟩).schedules) := by
  by_cases hch : isEqual st.data v = true
  · simp [setRun, hch, schedReqs_append, schedReqs_runWatchers_set]
  · simp only [Bool.not_eq_true] at hch
    simp [setRun, hch, schedReqs_append, schedReqs_runWatchers_set,
      schedReqs_runWatchers_change]

/-- **C3 counterexample**: job `0` runs, schedules the fresh job `1`
during the flush — and `1` executes in the SAME flush (`Set.forEach`
visits entries appended during iteration), not in a subsequent one: the
flush ends by clearing the queue, and the next flush runs nothing. -/
theorem spec_C3_counterexample :
    flushSteps behChain 3 [] [0] = [0, 1] ∧
    (flushRun behChain 3 [0]).2 = [] ∧
    (flushRun behChain 3 (flushRun behChain 3 [0]).2).1 = [] := by
  refine ⟨by decide, rfl, rfl⟩

/-- **C3 (amended)**: a job `k` scheduled during a flush by the executing
job `j`, when not already a member of the flush's `Set`, is executed
later in the SAME flush — JS `Set.forEach` visits entries appended while
the iteration runs — and the queue is cleared when the flush ends, so `k`
never carries over: every subsequent flush starts from the empty queue
and runs nothing.  (Job ids are drawn from `[0, n)` and `fuel ≥ n`
exhausts the flush loop.) -/
theorem spec_C3_reentrant_same_flush
    (beh : Nat → List Nat) (n fuel : Nat) (visited rest : List Nat) (j k : Nat)
    (hk : k ∈ beh j)
    (hkvis : k ∉ visited) (hkj : k ≠ j)
    (hvnd : visited.Nodup) (hnd : (j :: rest).Nodup)
    (hdisj : ∀ x ∈ j :: rest, x ∉ visited)
    (hvlt : ∀ x ∈ visited, x < n) (hplt : ∀ x ∈ j :: rest, x < n)
    (hbeh : ∀ i, ∀ x ∈ beh i, x < n)
    (hfuel : n ≤ fuel + visited.length) (hfuel1 : 1 ≤ fuel) :
    k ∈ flushSteps beh fuel visited (j :: rest) ∧
    ∀ m, drainFlushes beh fuel m [] = [] := by
  refine ⟨?_, drainFlushes_empty beh fuel⟩
  obtain ⟨f, rfl⟩ : ∃ f, fuel = f + 1 := ⟨fuel - 1, by omega⟩
  rw [flushSteps]
  apply List.mem_cons_of_mem
  have hkvis2 : k ∉ visited ++ [j] := by
    intro h
    rcases List.mem_append.mp h with h1 | h1
    · exact hkvis h1
    · exact hkj (List.mem_singleton.mp h1)
  have hkpend : k ∈ (beh j).foldl (schedAdd (visited ++ [j])) rest :=
    foldl_schedAdd_of_mem _ hkvis2 hk
  have hjrest : j ∉ rest := (List.nodup_cons.mp hnd).1
  have hrest_nd : rest.Nodup := (List.nodup_cons.mp hnd).2
  have hjvis : j ∉ visited := hdisj j (List.mem_cons_self _ _)
  have hvnd2 : (visited ++ [j]).Nodup := by
    rw [List.nodup_append]
    exact ⟨hvnd, List.nodup_singleton j,
      fun y hy hy2 => hjvis ((List.mem_singleton.mp hy2) ▸ hy)⟩
  have hdisj2 : ∀ y ∈ rest, y ∉ visited ++ [j] := by
    intro y hy hy2
    rcases List.mem_append.mp hy2 with h3 | h3
    · exact hdisj y (List.mem_cons_of_mem _ hy) h3
    · exact hjrest ((List.mem_singleton.mp h3) ▸ hy)
  obtain ⟨hnd2, hdisj3⟩ :=
    foldl_schedAdd_nodup_disjoint (beh j) hrest_nd hdisj2
  have hvlt2 : ∀ y ∈ visited ++ [j], y < n := by
    intro y hy
    rcases List.mem_append.mp hy with h3 | h3
    · exact hvlt y h3
    · exact (List.mem_singleton.mp h3) ▸ hplt j (List.mem_cons_self _ _)
  have hplt2 : ∀ y ∈ (beh j).foldl (schedAdd (visited ++ [j])) rest, y < n := by
    intro y hy
    rcases mem_foldl_schedAdd _ hy with h3 | h3
    · exact hplt y (List.mem_cons_of_mem _ h3)
    · exact hbeh j y h3
  have hn2 : n ≤ f + (visited ++ [j]).length := by
    rw [List.length_append, List.length_singleton]
    omega
  exact flushSteps_complete hbeh f (visited ++ [j]) _ hvnd2 hnd2 hvlt2 hplt2
    hdisj3 hn2 k hkpend

/-- **C3 witness**: the concrete reentrant chain `0 ↦ 1`. -/
theorem spec_C3_reentrant_same_flush_witness :
    1 ∈ flushSteps behChain 2 [] [0] := by
  have h := spec_C3_reentrant_same_flush behChain 2 2 [] [] 0 1
    (by simp [behChain]) (by simp) (by decide)
    List.nodup_nil (List.nodup_singleton 0) (by simp)
    (by simp) (by simp)
    (fun i x hx => by
      unfold behChain at hx
      split at hx
      · simp at hx
        omega
      · cases hx)
    (by simp) (by decide)
  exact h.1


/-- **C4**: (i) `useEffect(cb, null)` installs exactly one scheduler
watcher (for the effect job) on every cell registered at call time;
(ii) `N ≥ 1` synchronous `schedule(j)` calls within one turn coalesce to
one queue entry (while arming `N` microtask flushes) and the armed flushes
together execute `j` exactly once; (iii) two synchronous changing `set`
calls on two cells carrying the same effect watcher both request the
effect job, yet the queue holds it once and the flush executes it exactly
once — one additional execution, not two. -/
theorem spec_C4_coalescing
    (j N : Nat) (hN : 1 ≤ N)
    (st1 st2 : CellState) (v1 v2 : Value) (e n fuel : Nat)
    (beh : Nat → List Nat)
    (states : List CellState) (ucb : Unit → CbOutcome)
    (hw1 : (⟨schedulerCb e, none⟩ : Watcher WatchEffectParams) ∈ st1.onChange)
    (hw2 : (⟨schedulerCb e, none⟩ : Watcher WatchEffectParams) ∈ st2.onChange)
    (hc1 : isEqual st1.data v1 = false) (hc2 : isEqual st2.data v2 = false)
    (hb1 : ∀ x ∈ schedReqs (setRun st1 v1).2.1, x < n)
    (hb2 : ∀ x ∈ schedReqs (setRun st2 v2).2.1, x < n)
    (hbeh : ∀ i, ∀ x ∈ beh i, x < n)
    (hfuel : n ≤ fuel) :
    (useEffectRun states .nullDeps e ucb).1 =
      states.map (fun st =>
        { st with onChange := st.onChange ++ [⟨schedulerCb e, none⟩] }) ∧
    (scheduleAll schedIdle (List.replicate N j)).queue = [j] ∧
    (scheduleAll schedIdle (List.replicate N j)).flushesArmed = N ∧
    (∀ m, 1 ≤ m →
      (drainFlushes beh (fuel + 1) m
        (scheduleAll schedIdle (List.replicate N j)).queue).count j = 1) ∧
    e ∈ schedReqs (setRun st1 v1).2.1 ∧
    e ∈ schedReqs (setRun st2 v2).2.1 ∧
    (scheduleAll schedIdle
      (schedReqs (setRun st1 v1).2.1 ++ schedReqs (setRun st2 v2).2.1)).queue.count e
      = 1 ∧
    (flushSteps beh fuel []
      (scheduleAll schedIdle
        (schedReqs (setRun st1 v1).2.1 ++ schedReqs (setRun st2 v2).2.1)).queue).count e
      = 1 := by
  obtain ⟨hq, ha⟩ := scheduleAll_replicate j N hN
  have he1 : e ∈ schedReqs (setRun st1 v1).2.1 := by
    rw [setRun_schedReqs, hc1]
    simp only [if_neg (by simp : ¬(false = true))]
    apply List.mem_append_right
    exact List.mem_flatMap.mpr ⟨⟨schedulerCb e, none⟩, hw1, by simp [schedulerCb]⟩
  have he2 : e ∈ schedReqs (setRun st2 v2).2.1 := by
    rw [setRun_schedReqs, hc2]
    simp only [if_neg (by simp : ¬(false = true))]
    apply List.mem_append_right
    exact List.mem_flatMap.mpr ⟨⟨schedulerCb e, none⟩, hw2, by simp [schedulerCb]⟩
  have hQnd : (scheduleAll schedIdle
      (schedReqs (setRun st1 v1).2.1 ++ schedReqs (setRun st2 v2).2.1)).queue.Nodup :=
    scheduleAll_queue_nodup _ schedIdle List.nodup_nil
  have hQmem : e ∈ (scheduleAll schedIdle
      (schedReqs (setRun st1 v1).2.1 ++ schedReqs (setRun st2 v2).2.1)).queue := by
    rw [scheduleAll_queue_mem]
    exact .inr (List.mem_append_left _ he1)
  refine ⟨rfl, hq, ha, ?_, he1, he2, List.count_eq_one_of_mem hQnd hQmem, ?_⟩
  · intro m hm
    obtain ⟨m2, rfl⟩ : ∃ m2, m = m2 + 1 := ⟨m - 1, by omega⟩
    rw [hq, drainFlushes]
    have hdrain : drainFlushes beh (fuel + 1) m2 (flushRun beh (fuel + 1) [j]).2 = [] := by
      show drainFlushes beh (fuel + 1) m2 [] = []
      exact drainFlushes_empty beh (fuel + 1) m2
    rw [hdrain, List.append_nil]
    show (flushSteps beh (fuel + 1) [] [j]).count j = 1
    have hnd := (flushSteps_nodup beh (fuel + 1) [] [j]
      (List.nodup_singleton j) (by simp)).1
    have hmem : j ∈ flushSteps beh (fuel + 1) [] [j] := by
      rw [flushSteps]
      exact List.mem_cons_self _ _
    exact List.count_eq_one_of_mem hnd hmem
  · have hQlt : ∀ x ∈ (scheduleAll schedIdle
        (schedReqs (setRun st1 v1).2.1 ++ schedReqs (setRun st2 v2).2.1)).queue, x < n := by
      intro x hx
      rw [scheduleAll_queue_mem] at hx
      rcases hx with hx | hx
      · cases hx
      · rcases List.mem_append.mp hx with h3 | h3
        · exact hb1 x h3
        · exact hb2 x h3
    have hmem : e ∈ flushSteps beh fuel []
        (scheduleAll schedIdle
          (schedReqs (setRun st1 v1).2.1 ++ schedReqs (setRun st2 v2).2.1)).queue :=
      flushSteps_complete hbeh fuel [] _ List.nodup_nil hQnd (by simp) hQlt
        (by simp) (by simpa using hfuel) e hQmem
    have hnd := (flushSteps_nodup beh fuel [] _ hQnd (by simp)).1
    exact List.count_eq_one_of_mem hnd hmem

/-- **C4 witness**: two concrete cells sharing the effect watcher for job
`5`, each receiving one changing `set` in the same turn. -/
theorem spec_C4_coalescing_witness :
    (scheduleAll schedIdle (List.replicate 2 7)).queue = [7] ∧
    (scheduleAll schedIdle
      (schedReqs (setRun effCell1 (.num (.fin 1))).2.1 ++
        schedReqs (setRun effCell2 (.num (.fin 11))).2.1)).queue.count 5 = 1 := by
  have hc1 : isEqual effCell1.data (.num (.fin 1)) = false := by
    show isEqual (.num (.fin 0)) (.num (.fin 1)) = false
    rw [isEqual_fin]
    decide
  have hc2 : isEqual effCell2.data (.num (.fin 11)) = false := by
    show isEqual (.num (.fin 10)) (.num (.fin 11)) = false
    rw [isEqual_fin]
    decide
  have hr1 : schedReqs (setRun effCell1 (.num (.fin 1))).2.1 = [5] := by
    rw [setRun_schedReqs, hc1]
    simp [effCell1, schedulerCb]
  have hr2 : schedReqs (setRun effCell2 (.num (.fin 11))).2.1 = [5] := by
    rw [setRun_schedReqs, hc2]
    simp [effCell2, schedulerCb]
  have h := spec_C4_coalescing 7 2 (by decide) effCell1 effCell2
    (.num (.fin 1)) (.num (.fin 11)) 5 8 8 behNone [] (fun _ => ⟨[], .retVal⟩)
    (List.mem_singleton_self _) (List.mem_singleton_self _)
    hc1 hc2
    (by rw [hr1]; intro x hx; simp at hx; omega)
    (by rw [hr2]; intro x hx; simp at hx; omega)
    (fun i x hx => absurd hx (List.not_mem_nil x))
    (by decide)
  exact ⟨h.2.1, h.2.2.2.2.2.2.1⟩


/-- On two distinct `{disabled, loading, display}` objects — as
`useButton` builds them, with identical key order and boolean fields —
`isEqual` coincides with field-wise equality.  This justifies modelling
`useButton`'s `hasChange = !isEqual(state, value)` with `BtnState`
decidable equality in `btnSet`. -/
theorem isEqual_btnStateValue (r1 r2 : Nat) (s1 s2 : BtnState) (h : r1 ≠ r2) :
    isEqual (btnStateValue r1 s1) (btnStateValue r2 s2) = (s1 == s2) := by
  obtain ⟨d1, l1, p1⟩ := s1
  obtain ⟨d2, l2, p2⟩ := s2
  rw [btnStateValue, btnStateValue, isEqual]
  simp [strictEq, typeof, isArray, truthy, objKeys, arrElems, h, getProp,
    isEqual_bool]
  cases d1 <;> cases d2 <;> cases l1 <;> cases l2 <;> cases p1 <;> cases p2 <;>
    simp_all

/-- **C8**: `btn.loading(true)` replaces the state with one where
`value.loading === true` and `value.disabled === true` (and returns it),
and sets every bound element's native `disabled` property to `true`;
in general the rendered native `disabled` is `disabled || loading`. -/
theorem spec_C8_button_loading (bc : ButtonCell) :
    (btnLoading bc true).2.2.loading = true ∧
    (btnLoading bc true).2.2.disabled = true ∧
    (btnLoading bc true).1.state.loading = true ∧
    (btnLoading bc true).1.state.disabled = true ∧
    ((btnLoading bc true).1.elems.all fun b => b.el.disabled) = true ∧
    ∀ (cfg : BtnConfig) (s : BtnState) (el : BtnElem),
      (updateRenderElem cfg s el).disabled = (s.disabled || s.loading) := by
  refine ⟨rfl, rfl, rfl, rfl, ?_, fun cfg s el => rfl⟩
  simp [btnLoading, btnSet, updateRender, updateRenderElem, List.all_eq_true]

/-- **C5**: `useEffect(cb, [])` subscribes to no cell — the registry comes
back unchanged — and executes `cb` exactly once, synchronously, at
registration.  Because no subscription was installed, provided no
pre-existing watcher requests the effect's job (true in particular for a
fresh job id), no later `set` on any registered cell ever schedules it,
and a job never scheduled is never executed by any flush: `cb` never runs
again. -/
theorem spec_C5_useEffect_empty_deps
    (states : List CellState) (ucb : Unit → CbOutcome) (job : Nat)
    (hfresh : ∀ st ∈ states,
      (∀ w ∈ st.onSet, ∀ p, job ∉ (w.cb p).schedules) ∧
      (∀ w ∈ st.onChange, ∀ p, job ∉ (w.cb p).schedules)) :
    (useEffectRun states (.listDeps []) job ucb).1 = states ∧
    effectRuns (useEffectRun states (.listDeps []) job ucb).2.1 = 1 ∧
    (∀ st ∈ states, ∀ v, job ∉ schedReqs (setRun st v).2.1) ∧
    (∀ (reqs : List Nat) (fuel m : Nat) (beh : Nat → List Nat),
      job ∉ reqs → (∀ i, job ∉ beh i) →
      job ∉ drainFlushes beh fuel m (scheduleAll schedIdle reqs).queue) := by
  refine ⟨rfl, ?_, ?_, ?_⟩
  · show effectRuns (Event.effectCbRun :: (ucb ()).schedules.map Event.schedReq) = 1
    simp only [effectRuns, List.filter_cons]
    simp [List.filter_map]
  · intro st hst v hmem
    rw [setRun_schedReqs] at hmem
    rcases List.mem_append.mp hmem with h1 | h1
    · obtain ⟨w, hw, hjw⟩ := List.mem_flatMap.mp h1
      exact (hfresh st hst).1 w hw _ hjw
    · by_cases hch : isEqual st.data v = true
      · rw [if_pos hch] at h1
        cases h1
      · rw [if_neg hch] at h1
        obtain ⟨w, hw, hjw⟩ := List.mem_flatMap.mp h1
        exact (hfresh st hst).2 w hw _ hjw
  · intro reqs fuel m beh hreq hbeh2
    have hq : job ∉ (scheduleAll schedIdle reqs).queue := by
      rw [scheduleAll_queue_mem]
      rintro (h1 | h1)
      · cases h1
      · exact hreq h1
    cases m with
    | zero => simp [drainFlushes]
    | succ m2 =>
        rw [drainFlushes]
        intro hmem
        rcases List.mem_append.mp hmem with h1 | h1
        · exact flushSteps_not_mem hbeh2 fuel [] _ hq h1
        · rw [show (flushRun beh fuel (scheduleAll schedIdle reqs).queue).2 = []
            from rfl, drainFlushes_empty] at h1
          cases h1

/-- **C5 witness**: one registered cell, a fresh effect job id. -/
theorem spec_C5_useEffect_empty_deps_witness :
    (useEffectRun [zeroCell] (.listDeps []) 9 (fun _ => ⟨[], .retVal⟩)).1 =
      [zeroCell] ∧
    effectRuns (useEffectRun [zeroCell] (.listDeps []) 9
      (fun _ => ⟨[], .retVal⟩)).2.1 = 1 := by
  have h := spec_C5_useEffect_empty_deps [zeroCell] (fun _ => ⟨[], .retVal⟩) 9
    (by
      intro st hst
      rw [List.mem_singleton] at hst
      subst hst
      constructor
      · intro w hw p
        rw [show zeroCell.onSet = [⟨noopWatchCb, none⟩] from rfl,
          List.mem_singleton] at hw
        subst hw
        simp [noopWatchCb]
      · intro w hw p
        rw [show zeroCell.onChange = [⟨noopEffectCb, none⟩] from rfl,
          List.mem_singleton] at hw
        subst hw
        simp [noopEffectCb])
  exact ⟨h.1, h.2.1⟩

/-- **C7 counterexample**: passing a single (non-array) Cell as
`useMemo`'s `deps` does NOT construct a memo — `deps.forEach` is not a
function on a Cell, and the `TypeError` escapes to the caller. -/
theorem spec_C7_counterexample :
    useMemoRun [zeroCell] (.singleCell 0) 3 (fun _ => .num (.fin 30)) =
      .error .typeError := rfl

/-- **C7 (amended)**: `useMemo(factory, deps)` does NOT accept a single
Cell and a list uniformly: a bare Cell makes construction throw a
`TypeError` (`deps.forEach is not a function`), for every registry and
factory.  For a one-element LIST `[c]`, construction succeeds, appends
the compute-scheduling watcher to that cell's change channel, and
performs one synchronous initial compute storing `factory()`. -/
theorem spec_C7_useMemo_deps
    (states : List CellState) (st : CellState) (i cJob : Nat)
    (factory : Unit → Value) (hi : states.get? i = some st) :
    (∀ idx, useMemoRun states (.singleCell idx) cJob factory =
      .error .typeError) ∧
    useMemoRun states (.listCells [i]) cJob factory =
      .ok (states.set i
          { st with onChange := st.onChange ++ [⟨schedulerCb cJob, none⟩] },
        [Event.memoComputeRun (factory ())], factory ()) := by
  refine ⟨fun idx => rfl, ?_⟩
  have hi2 : states[i]? = some st := by
    rw [← List.get?_eq_getElem?]
    exact hi
  simp [useMemoRun, hi2, watchEffectReg]

/-- **C7 witness**: a one-cell registry with a one-element dependency
list versus the same cell passed bare. -/
theorem spec_C7_useMemo_deps_witness :
    useMemoRun [zeroCell] (.singleCell 0) 3 (fun _ => .num (.fin 30)) =
      .error .typeError ∧
    useMemoRun [zeroCell] (.listCells [0]) 3 (fun _ => .num (.fin 30)) =
      .ok ([{ zeroCell with
          onChange := zeroCell.onChange ++ [⟨schedulerCb 3, none⟩] }],
        [Event.memoComputeRun (.num (.fin 30))], .num (.fin 30)) := by
  have h := spec_C7_useMemo_deps [zeroCell] zeroCell 0 3
    (fun _ => .num (.fin 30)) rfl
  exact ⟨h.1 0, h.2⟩

end RamState
